import Mathlib

/-
  Verification development for the slinky oracle subcomponents:
  * abci/proposals: ValidateExtendedCommitInfoPrepare / ValidateExtendedCommitInfoProcess
  * providers/apis/uniswapv3: UniswapV3PriceFetcher (Fetch, GetPool, ParseSqrtPriceX96)
  * pkg/math/oracle: the median combination step of the price aggregation engine
    (modelled from the specification; the aggregation source itself is not part of
    the verified tree, only its test helpers are).

  Collaborators (the supermajority predicate `validateVoteExtensionsFn`, the vote
  extension codec, `ve.ValidateOracleVoteExtension` with the handler's currency pair
  strategy, the EVM client, json unmarshalling, hex decoding and abi unpacking) are
  modelled as abstract function parameters, matching their success/failure contracts.
  Logger calls in the Go source are no-ops for the control flow and are omitted.
-/

set_option autoImplicit false

namespace Slinky

/-! ## abci/proposals data model (cometabci types, restricted to the fields the code reads) -/

/-- Raw consensus address bytes of a validator (Go: `[]byte`; map keys are built with
`string(vote.Validator.Address)`, i.e. bytewise equality). -/
abbrev Address := List Nat

/-- cometabci `Validator`: address bytes plus voting power. -/
structure Validator where
  address : Address
  power : Int
deriving DecidableEq

/-- cometabci `ExtendedVoteInfo`, restricted to the fields read by the handler. -/
structure ExtendedVoteInfo where
  validator : Validator
  voteExtension : List Nat
deriving DecidableEq

/-- cometabci `ExtendedCommitInfo`. -/
structure ExtendedCommitInfo where
  round : Int
  votes : List ExtendedVoteInfo
deriving DecidableEq

/-- cometabci `VoteInfo` (an entry of `ProposedLastCommit.Votes`). -/
structure VoteInfo where
  validator : Validator
deriving DecidableEq

/-- cometabci `CommitInfo`. -/
structure CommitInfo where
  round : Int
  votes : List VoteInfo
deriving DecidableEq

/-- cometabci `RequestProcessProposal`, restricted to the fields read by the handler.
The model represents only non-nil requests, matching the documented precondition that
the caller has already checked the request for nil. -/
structure RequestProcessProposal where
  height : Int
  proposedLastCommit : CommitInfo
deriving DecidableEq

/-- The vote extension codec collaborator: `Decode(bytes) -> (VE, error)`. -/
structure VoteExtensionCodec (VE : Type) where
  decode : List Nat → Except String VE

/-- The proposal handler's collaborators, over an abstract context type `Ctx`
(sdk.Context) and an abstract decoded vote extension type `VE`.
`validateVoteExtensionsFn` is the supermajority predicate;
`validateOracleVoteExtension` stands for the package level collaborator
`ve.ValidateOracleVoteExtension(ctx, voteExt, h.currencyPairStrategy)`, with the
handler's currency pair strategy already supplied. Go errors are modelled as
strings. -/
structure ProposalHandler (Ctx VE : Type) where
  validateVoteExtensionsFn : Ctx → ExtendedCommitInfo → Except String Unit
  voteExtensionCodec : VoteExtensionCodec VE
  validateOracleVoteExtension : Ctx → VE → Except String Unit

variable {Ctx VE : Type}

/-- The per-vote loop of `ValidateExtendedCommitInfoPrepare` (source lines 32-50):
decode each vote's extension bytes, then validate the decoded extension; the first
failure is returned and stops the iteration. -/
def validateVotesPrepare (h : ProposalHandler Ctx VE) (ctx : Ctx) :
    List ExtendedVoteInfo → Except String Unit
  | [] => .ok ()
  | vote :: rest =>
    match h.voteExtensionCodec.decode vote.voteExtension with
    | .error e => .error e
    | .ok voteExt =>
      match h.validateOracleVoteExtension ctx voteExt with
      | .error e => .error e
      | .ok _ => validateVotesPrepare h ctx rest

/-- `ValidateExtendedCommitInfoPrepare` (source lines 16-53): run the supermajority
predicate, then decode and validate every oracle vote extension in order. The
`height` argument is only used for logging in the source. -/
def ValidateExtendedCommitInfoPrepare (h : ProposalHandler Ctx VE) (ctx : Ctx)
    (height : Int) (extendedCommitInfo : ExtendedCommitInfo) : Except String Unit :=
  match h.validateVoteExtensionsFn ctx extendedCommitInfo with
  | .error e => .error e
  | .ok _ => validateVotesPrepare h ctx extendedCommitInfo.votes

/-- Membership of an address among the proposed last commit's votes. The source
builds `requestCommits`, a map keyed by `string(vote.Validator.Address)`, and then
only tests `found` on lookups, so map lookup reduces to membership of the raw
address bytes among the commit votes' validator addresses. -/
def addressInCommits (commits : List VoteInfo) (address : Address) : Bool :=
  match commits with
  | [] => false
  | c :: rest => if c.validator.address = address then true else addressInCommits rest address

/-- The descriptive error returned by the process path when a validator in the
extended commit info has no entry in the proposed last commit. -/
def noVoteForValidatorError : String :=
  "no vote for validator in extended commit vote found in proposed last commit"

/-- The per-vote loop of `ValidateExtendedCommitInfoProcess` (source lines 83-113):
for each vote, first require a matching entry in the proposed last commit, then
decode and validate exactly as the prepare path does. -/
def validateVotesProcess (h : ProposalHandler Ctx VE) (ctx : Ctx)
    (req : RequestProcessProposal) : List ExtendedVoteInfo → Except String Unit
  | [] => .ok ()
  | vote :: rest =>
    if addressInCommits req.proposedLastCommit.votes vote.validator.address then
      match h.voteExtensionCodec.decode vote.voteExtension with
      | .error e => .error e
      | .ok voteExt =>
        match h.validateOracleVoteExtension ctx voteExt with
        | .error e => .error e
        | .ok _ => validateVotesProcess h ctx req rest
    else
      .error noVoteForValidatorError

/-- `ValidateExtendedCommitInfoProcess` (source lines 62-116): run the supermajority
predicate, build the last-commit lookup, then cross-reference, decode and validate
every oracle vote extension in order. -/
def ValidateExtendedCommitInfoProcess (h : ProposalHandler Ctx VE) (ctx : Ctx)
    (req : RequestProcessProposal) (extendedCommitInfo : ExtendedCommitInfo) : Except String Unit :=
  match h.validateVoteExtensionsFn ctx extendedCommitInfo with
  | .error e => .error e
  | .ok _ => validateVotesProcess h ctx req extendedCommitInfo.votes

/-- A vote passes the shared decode/validate step: its extension decodes and the
decoded extension passes the oracle vote validator. -/
def votePasses (h : ProposalHandler Ctx VE) (ctx : Ctx) (vote : ExtendedVoteInfo) : Prop :=
  ∃ voteExt, h.voteExtensionCodec.decode vote.voteExtension = .ok voteExt ∧
    h.validateOracleVoteExtension ctx voteExt = .ok ()

/-- A vote fails the shared decode/validate step with error `e`: either its extension
bytes fail to decode with `e`, or they decode and the oracle vote validator rejects
the decoded extension with `e`. -/
def voteFailsWith (h : ProposalHandler Ctx VE) (ctx : Ctx) (vote : ExtendedVoteInfo)
    (e : String) : Prop :=
  h.voteExtensionCodec.decode vote.voteExtension = .error e ∨
    ∃ voteExt, h.voteExtensionCodec.decode vote.voteExtension = .ok voteExt ∧
      h.validateOracleVoteExtension ctx voteExt = .error e

/-! ### Concrete sample collaborators and inputs, used by the witnesses -/

/-- A codec that decodes every byte string successfully. -/
def unitCodecOk : VoteExtensionCodec Unit := ⟨fun _ => .ok ()⟩

/-- A handler whose supermajority predicate always fails. -/
def handlerSupFails : ProposalHandler Unit Unit :=
  ⟨fun _ _ => .error "no supermajority", unitCodecOk, fun _ _ => .ok ()⟩

/-- A handler whose collaborators all succeed. -/
def handlerAllOk : ProposalHandler Unit Unit :=
  ⟨fun _ _ => .ok (), unitCodecOk, fun _ _ => .ok ()⟩

/-- A handler whose codec rejects every byte string. -/
def handlerDecodeFails : ProposalHandler Unit Unit :=
  ⟨fun _ _ => .ok (), ⟨fun _ => .error "bad bytes"⟩, fun _ _ => .ok ()⟩

/-- A sample validator. -/
def sampleValidator : Validator := ⟨[1, 2, 3], 10⟩

/-- A sample extended vote. -/
def sampleVote : ExtendedVoteInfo := ⟨sampleValidator, [0]⟩

/-- A sample extended commit info holding one vote. -/
def sampleECI : ExtendedCommitInfo := ⟨0, [sampleVote]⟩

/-- A sample extended commit info with no votes. -/
def emptyECI : ExtendedCommitInfo := ⟨0, []⟩

/-- A sample request whose proposed last commit is empty. -/
def sampleReqEmpty : RequestProcessProposal := ⟨5, ⟨0, []⟩⟩

/-- A sample request whose proposed last commit records the sample validator. -/
def sampleReqMatching : RequestProcessProposal := ⟨5, ⟨0, [⟨sampleValidator⟩]⟩⟩

/-! ## Price aggregation engine: the combination step

The aggregation source is not part of the verified tree (only its test helpers
are), so the combination step is modelled from the specification. -/

/-- Modelled from the spec: the median of the candidate prices, computed in the
higher-precision intermediate type (rationals): sort the candidates; an odd count
takes the middle value, an even count takes the average of the two middle values.
The aggregation engine source is not under the verified tree. -/
def medianOfCandidates (candidates : List ℚ) : ℚ :=
  let sorted := List.insertionSort (fun a b => a ≤ b) candidates
  if sorted.length % 2 = 1 then sorted.getD (sorted.length / 2) 0
  else (sorted.getD (sorted.length / 2 - 1) 0 + sorted.getD (sorted.length / 2) 0) / 2

/-- Modelled from the spec: rounding of the higher-precision intermediate to an
integer ScaledPrice using round-half-away-from-zero. The aggregation engine source
is not under the verified tree. -/
def roundHalfAwayFromZero (q : ℚ) : ℤ :=
  if 0 ≤ q then ⌊q + 1 / 2⌋ else ⌈q - 1 / 2⌉

/-- Modelled from the spec: the per-ticker combination step of Aggregate. If fewer
than `minProviderCount` candidates were resolved the ticker has no price this round
(`none`, never zero); otherwise the result is the rounded median of the candidates.
The aggregation engine source is not under the verified tree. -/
def aggregateCandidates (minProviderCount : Nat) (candidates : List ℚ) : Option ℤ :=
  if candidates.length < minProviderCount then none
  else some (roundHalfAwayFromZero (medianOfCandidates candidates))

/-! ## providers/apis/uniswapv3: UniswapV3PriceFetcher -/

/-- mmtypes `CurrencyPair`. -/
structure CurrencyPair where
  base : String
  quote : String
deriving DecidableEq

/-- mmtypes `Ticker`, restricted to the fields the fetcher reads. -/
structure Ticker where
  currencyPair : CurrencyPair
  decimals : Nat
  minProviderCount : Nat
  metadataJSON : String
deriving DecidableEq

/-- The uniswap pool configuration carried in a ticker's metadata. -/
structure PoolConfig where
  address : String
  baseDecimals : Int
  quoteDecimals : Int
  invert : Bool
deriving DecidableEq

/-- providertypes error codes used by the fetcher. -/
inductive ErrorCode where
  | errorFailedToDecode
  | errorAPIGeneral
  | errorUnknown
  | errorFailedToParsePrice
deriving DecidableEq

/-- types `PriceResponse`: resolved prices and unresolved tickers with their error
codes, both keyed by ticker. -/
structure PriceResponse where
  resolved : List (Ticker × Int)
  unResolved : List (Ticker × ErrorCode)
deriving DecidableEq

/-- types `NewPriceResponseWithErr`: every input ticker is unresolved with the
given error code, and nothing is resolved. -/
def NewPriceResponseWithErr (tickers : List Ticker) (code : ErrorCode) : PriceResponse :=
  ⟨[], tickers.map (fun t => (t, code))⟩

/-- The fetcher's `poolCache` field (Go `map[mmtypes.Ticker]PoolConfig`), as an
association list keyed by ticker value equality. -/
abbrev PoolCache := List (Ticker × PoolConfig)

/-- Lookup in the pool cache by ticker value equality. -/
def cacheLookup (u : PoolCache) (ticker : Ticker) : Option PoolConfig :=
  match u with
  | [] => none
  | (t, p) :: rest => if t = ticker then some p else cacheLookup rest ticker

/-- The fetcher's collaborators: json unmarshalling of pool metadata, pool config
validation, the EVM client's batched call (overall error, or one result or error
per requested pool address), hex decoding, abi unpacking of slot0 (yielding
sqrtPriceX96), and the composed price arithmetic `ConvertSquareRootX96Price`
followed by `ScalePrice` and truncation to a big integer. -/
structure UniswapEnv where
  unmarshalPoolConfig : String → Except String PoolConfig
  validateBasic : PoolConfig → Except String Unit
  batchCall : List String → Except String (List (Except String String))
  hexDecode : String → Except String (List Nat)
  unpackSlot0 : List Nat → Except String Int
  priceFromSqrt : Ticker → PoolConfig → Int → Int

/-- The non-cached path of `GetPool` (source lines 231-237): unmarshal the ticker's
metadata and validate the resulting pool config, wrapping either failure. -/
def poolParse (env : UniswapEnv) (ticker : Ticker) : Except String PoolConfig :=
  match env.unmarshalPoolConfig ticker.metadataJSON with
  | .error e => .error ("failed to unmarshal pool config on ticker: " ++ e)
  | .ok cfg =>
    match env.validateBasic cfg with
    | .error e => .error ("invalid ticker pool config: " ++ e)
    | .ok _ => .ok cfg

/-- `GetPool` (source lines 224-241): return the cached pool config if present;
otherwise parse and validate the metadata, caching the config on success only. -/
def GetPool (env : UniswapEnv) (u : PoolCache) (ticker : Ticker) :
    Except String PoolConfig × PoolCache :=
  match cacheLookup u ticker with
  | some pool => (.ok pool, u)
  | none =>
    match poolParse env ticker with
    | .error e => (.error e, u)
    | .ok cfg => (.ok cfg, (ticker, cfg) :: u)

/-- `ParseSqrtPriceX96` (source lines 244-269): reject a nil result, hex-decode the
result string, then abi-unpack the slot0 outputs to obtain sqrtPriceX96. The Go
type assertion cannot fail for results produced by `Fetch`, which always supplies a
string. -/
def ParseSqrtPriceX96 (env : UniswapEnv) (result : Option String) : Except String Int :=
  match result with
  | none => .error "result is nil"
  | some r =>
    match env.hexDecode r with
    | .error e => .error ("failed to decode hex result: " ++ e)
    | .ok bz =>
      match env.unpackSlot0 bz with
      | .error e => .error ("failed to unpack values: " ++ e)
      | .ok sqrtPriceX96 => .ok sqrtPriceX96

/-- The per-ticker tail of `Fetch`'s result loop (source lines 171-216): a
per-element RPC error marks the ticker unresolved with ErrorUnknown; a
sqrtPriceX96 parse failure marks it unresolved with ErrorFailedToParsePrice;
otherwise the converted and scaled price resolves the ticker. -/
def fetchResultForTicker (env : UniswapEnv) (ticker : Ticker) (pool : PoolConfig)
    (result : Except String String) : Except ErrorCode Int :=
  match result with
  | .error _ => .error .errorUnknown
  | .ok r =>
    match ParseSqrtPriceX96 env (some r) with
    | .error _ => .error .errorFailedToParsePrice
    | .ok sqrtPriceX96 => .ok (env.priceFromSqrt ticker pool sqrtPriceX96)

/-- Zip three lists positionally, truncating at the shortest. -/
def zip3 {α β γ : Type} : List α → List β → List γ → List (α × β × γ)
  | a :: ra, b :: rb, c :: rc => (a, b, c) :: zip3 ra rb rc
  | _, _, _ => []

/-- The result loop of `Fetch` (source lines 170-219), splitting the per-ticker
outcomes into the resolved and unresolved maps. -/
def processResults (env : UniswapEnv) :
    List (Ticker × PoolConfig × Except String String) → PriceResponse
  | [] => ⟨[], []⟩
  | (ticker, pool, result) :: rest =>
    let resp := processResults env rest
    match fetchResultForTicker env ticker pool result with
    | .ok price => ⟨(ticker, price) :: resp.resolved, resp.unResolved⟩
    | .error code => ⟨resp.resolved, (ticker, code) :: resp.unResolved⟩

/-- The pool-collection loop of `Fetch` (source lines 121-155): get the pool for
each ticker in order, threading the cache; the first failure aborts the loop. -/
def getPoolsAcc (env : UniswapEnv) :
    PoolCache → List Ticker → Except String (List PoolConfig) × PoolCache
  | u, [] => (.ok [], u)
  | u, ticker :: rest =>
    match GetPool env u ticker with
    | (.error e, u₂) => (.error e, u₂)
    | (.ok pool, u₂) =>
      match getPoolsAcc env u₂ rest with
      | (.ok pools, u₃) => (.ok (pool :: pools), u₃)
      | (.error e, u₃) => (.error e, u₃)

/-- `Fetch` (source lines 106-220): collect the pool for every ticker (a failure
returns every ticker unresolved with ErrorFailedToDecode), issue the batched EVM
call on the pool addresses (a failure returns every ticker unresolved with
ErrorAPIGeneral), then process the per-ticker results. -/
def Fetch (env : UniswapEnv) (u : PoolCache) (tickers : List Ticker) :
    PriceResponse × PoolCache :=
  match getPoolsAcc env u tickers with
  | (.error _, u₂) => (NewPriceResponseWithErr tickers .errorFailedToDecode, u₂)
  | (.ok pools, u₂) =>
    match env.batchCall (pools.map (fun p => p.address)) with
    | .error _ => (NewPriceResponseWithErr tickers .errorAPIGeneral, u₂)
    | .ok results => (processResults env (zip3 tickers pools results), u₂)

/-- A ticker appears in the resolved map of a response. -/
def resolvedTicker (resp : PriceResponse) (ticker : Ticker) : Prop :=
  ∃ price, (ticker, price) ∈ resp.resolved

/-- A ticker appears in the unresolved map of a response. -/
def unresolvedTicker (resp : PriceResponse) (ticker : Ticker) : Prop :=
  ∃ code, (ticker, code) ∈ resp.unResolved

/-! ### Concrete sample fetcher inputs, used by the witnesses -/

/-- A sample ticker. -/
def sampleTickerA : Ticker := ⟨⟨"BTC", "USD"⟩, 8, 3, "poolA"⟩

/-- Another sample ticker. -/
def sampleTickerB : Ticker := ⟨⟨"ETH", "USD"⟩, 18, 3, "poolB"⟩

/-- A sample pool config. -/
def samplePool : PoolConfig := ⟨"0xabc", 8, 18, false⟩

/-- A fetcher environment whose collaborators all succeed. -/
def sampleEnvOk : UniswapEnv :=
  ⟨fun _ => .ok samplePool, fun _ => .ok (),
    fun reqs => .ok (reqs.map (fun _ => .ok "0x01")),
    fun _ => .ok [1], fun _ => .ok 7, fun _ _ s => s⟩

/-- A fetcher environment whose metadata unmarshalling fails. -/
def sampleEnvUnmarshalFails : UniswapEnv :=
  ⟨fun _ => .error "bad json", fun _ => .ok (),
    fun reqs => .ok (reqs.map (fun _ => .ok "0x01")),
    fun _ => .ok [1], fun _ => .ok 7, fun _ _ s => s⟩

/-- A fetcher environment whose batched EVM call fails as a whole. -/
def sampleEnvBatchFails : UniswapEnv :=
  ⟨fun _ => .ok samplePool, fun _ => .ok (),
    fun _ => .error "network down",
    fun _ => .ok [1], fun _ => .ok 7, fun _ _ s => s⟩

/-- A fetcher environment where the EVM call succeeds per element for the first
request and fails per element for every later request. -/
def sampleEnvMixed : UniswapEnv :=
  ⟨fun _ => .ok samplePool, fun _ => .ok (),
    fun reqs =>
      .ok (reqs.enum.map (fun pr => if pr.1 = 0 then .ok "0x01" else .error "rpc")),
    fun _ => .ok [1], fun _ => .ok 7, fun _ _ s => s⟩

end Slinky

namespace Slinky

variable {Ctx VE : Type}

/-! ## Lemmas about the per-vote loops -/

/-- The prepare loop succeeds exactly when every vote decodes and validates. -/
theorem validateVotesPrepare_ok_iff (h : ProposalHandler Ctx VE) (ctx : Ctx)
    (votes : List ExtendedVoteInfo) :
    validateVotesPrepare h ctx votes = .ok () ↔ ∀ v ∈ votes, votePasses h ctx v := by
  induction votes with
  | nil => simp [validateVotesPrepare]
  | cons vote rest ih =>
    cases hd : h.voteExtensionCodec.decode vote.voteExtension with
    | error e =>
      simp only [validateVotesPrepare, hd, List.mem_cons, reduceCtorEq, false_iff]
      intro hall
      obtain ⟨w, hw, _⟩ := hall vote (Or.inl rfl)
      rw [hd] at hw
      exact Except.noConfusion hw
    | ok voteExt =>
      cases hv : h.validateOracleVoteExtension ctx voteExt with
      | error e =>
        simp only [validateVotesPrepare, hd, hv, List.mem_cons, reduceCtorEq, false_iff]
        intro hall
        obtain ⟨w, hw, hvw⟩ := hall vote (Or.inl rfl)
        rw [hd] at hw
        cases hw
        rw [hv] at hvw
        exact Except.noConfusion hvw
      | ok u =>
        cases u
        simp only [validateVotesPrepare, hd, hv, List.mem_cons]
        rw [ih]
        constructor
        · intro hrest v hvmem
          rcases hvmem with hhead | htail
          · exact hhead ▸ ⟨voteExt, hd, hv⟩
          · exact hrest v htail
        · intro hall v hvmem
          exact hall v (Or.inr hvmem)

/-- The process loop succeeds exactly when every vote is cross-referenced in the
proposed last commit and decodes and validates. -/
theorem validateVotesProcess_ok_iff (h : ProposalHandler Ctx VE) (ctx : Ctx)
    (req : RequestProcessProposal) (votes : List ExtendedVoteInfo) :
    validateVotesProcess h ctx req votes = .ok () ↔
      ∀ v ∈ votes,
        addressInCommits req.proposedLastCommit.votes v.validator.address = true ∧
          votePasses h ctx v := by
  induction votes with
  | nil => simp [validateVotesProcess]
  | cons vote rest ih =>
    cases hfound : addressInCommits req.proposedLastCommit.votes vote.validator.address with
    | false =>
      simp only [validateVotesProcess, hfound, Bool.false_eq_true, if_false, ite_false,
        List.mem_cons, reduceCtorEq, false_iff]
      intro hall
      obtain ⟨hfoundv, _⟩ := hall vote (Or.inl rfl)
      rw [hfound] at hfoundv
      exact Bool.noConfusion hfoundv
    | true =>
      cases hd : h.voteExtensionCodec.decode vote.voteExtension with
      | error e =>
        simp only [validateVotesProcess, hfound, if_true, ite_true, hd, List.mem_cons,
          reduceCtorEq, false_iff]
        intro hall
        obtain ⟨_, w, hw, _⟩ := hall vote (Or.inl rfl)
        rw [hd] at hw
        exact Except.noConfusion hw
      | ok voteExt =>
        cases hv : h.validateOracleVoteExtension ctx voteExt with
        | error e =>
          simp only [validateVotesProcess, hfound, if_true, ite_true, hd, hv, List.mem_cons,
            reduceCtorEq, false_iff]
          intro hall
          obtain ⟨_, w, hw, hvw⟩ := hall vote (Or.inl rfl)
          rw [hd] at hw
          cases hw
          rw [hv] at hvw
          exact Except.noConfusion hvw
        | ok u =>
          cases u
          simp only [validateVotesProcess, hfound, if_true, ite_true, hd, hv, List.mem_cons]
          rw [ih]
          constructor
          · intro hrest v hvmem
            rcases hvmem with hhead | htail
            · exact hhead ▸ ⟨hfound, voteExt, hd, hv⟩
            · exact hrest v htail
          · intro hall v hvmem
            exact hall v (Or.inr hvmem)

/-- When every vote before `v` passes and `v` fails with `e`, the prepare loop
returns exactly `e`, regardless of the votes after `v`. -/
theorem validateVotesPrepare_firstFailure (h : ProposalHandler Ctx VE) (ctx : Ctx)
    (pre : List ExtendedVoteInfo) (v : ExtendedVoteInfo) (post : List ExtendedVoteInfo)
    (e : String) (hpre : ∀ u ∈ pre, votePasses h ctx u) (hfail : voteFailsWith h ctx v e) :
    validateVotesPrepare h ctx (pre ++ v :: post) = .error e := by
  induction pre with
  | nil =>
    rcases hfail with hd | ⟨w, hw, hvw⟩
    · simp [validateVotesPrepare, hd]
    · simp [validateVotesPrepare, hw, hvw]
  | cons u rest ih =>
    obtain ⟨w, hw, hvw⟩ := hpre u (List.mem_cons_self u rest)
    simp only [List.cons_append, validateVotesPrepare, hw, hvw]
    exact ih (fun x hx => hpre x (List.mem_cons_of_mem u hx))

/-- When every vote before `v` is cross-referenced and passes, `v` is
cross-referenced but fails with `e`, the process loop returns exactly `e`,
regardless of the votes after `v`. -/
theorem validateVotesProcess_firstFailure (h : ProposalHandler Ctx VE) (ctx : Ctx)
    (req : RequestProcessProposal) (pre : List ExtendedVoteInfo) (v : ExtendedVoteInfo)
    (post : List ExtendedVoteInfo) (e : String)
    (hpre : ∀ u ∈ pre,
      addressInCommits req.proposedLastCommit.votes u.validator.address = true ∧
        votePasses h ctx u)
    (hfound : addressInCommits req.proposedLastCommit.votes v.validator.address = true)
    (hfail : voteFailsWith h ctx v e) :
    validateVotesProcess h ctx req (pre ++ v :: post) = .error e := by
  induction pre with
  | nil =>
    rcases hfail with hd | ⟨w, hw, hvw⟩
    · simp [validateVotesProcess, hfound, hd]
    · simp [validateVotesProcess, hfound, hw, hvw]
  | cons u rest ih =>
    obtain ⟨hufound, w, hw, hvw⟩ := hpre u (List.mem_cons_self u rest)
    simp only [List.cons_append, validateVotesProcess, hufound, if_true, ite_true, hw, hvw]
    exact ih (fun x hx => hpre x (List.mem_cons_of_mem u hx))

/-- Characterization of the prepare entry point's success. -/
theorem ValidateExtendedCommitInfoPrepare_ok (h : ProposalHandler Ctx VE) (ctx : Ctx)
    (height : Int) (eci : ExtendedCommitInfo) :
    ValidateExtendedCommitInfoPrepare h ctx height eci = .ok () ↔
      h.validateVoteExtensionsFn ctx eci = .ok () ∧ ∀ v ∈ eci.votes, votePasses h ctx v := by
  cases hsup : h.validateVoteExtensionsFn ctx eci with
  | error e => simp [ValidateExtendedCommitInfoPrepare, hsup]
  | ok u =>
    cases u
    simp [ValidateExtendedCommitInfoPrepare, hsup, validateVotesPrepare_ok_iff]

/-- Characterization of the process entry point's success. -/
theorem ValidateExtendedCommitInfoProcess_ok (h : ProposalHandler Ctx VE) (ctx : Ctx)
    (req : RequestProcessProposal) (eci : ExtendedCommitInfo) :
    ValidateExtendedCommitInfoProcess h ctx req eci = .ok () ↔
      h.validateVoteExtensionsFn ctx eci = .ok () ∧
        ∀ v ∈ eci.votes,
          addressInCommits req.proposedLastCommit.votes v.validator.address = true ∧
            votePasses h ctx v := by
  cases hsup : h.validateVoteExtensionsFn ctx eci with
  | error e => simp [ValidateExtendedCommitInfoProcess, hsup]
  | ok u =>
    cases u
    simp [ValidateExtendedCommitInfoProcess, hsup, validateVotesProcess_ok_iff]

/-! ## Claim theorems -/

/-- C1: when the supermajority predicate rejects the extended commit info with
error `e`, both entry points return exactly `e`, and the outcome is independent of
the codec and oracle vote validator collaborators, which shows that no vote
extension is decoded. -/
theorem supermajority_failure_aborts_both (h : ProposalHandler Ctx VE) (ctx : Ctx)
    (height : Int) (req : RequestProcessProposal) (eci : ExtendedCommitInfo) (e : String)
    (hsup : h.validateVoteExtensionsFn ctx eci = .error e) :
    ValidateExtendedCommitInfoPrepare h ctx height eci = .error e ∧
    ValidateExtendedCommitInfoProcess h ctx req eci = .error e ∧
    ∀ (codec : VoteExtensionCodec VE) (vov : Ctx → VE → Except String Unit),
      ValidateExtendedCommitInfoPrepare ⟨h.validateVoteExtensionsFn, codec, vov⟩
          ctx height eci = .error e ∧
      ValidateExtendedCommitInfoProcess ⟨h.validateVoteExtensionsFn, codec, vov⟩
          ctx req eci = .error e := by
  refine ⟨?_, ?_, fun codec vov => ⟨?_, ?_⟩⟩ <;>
    simp [ValidateExtendedCommitInfoPrepare, ValidateExtendedCommitInfoProcess, hsup]

/-- Witness for C1 at a concrete handler whose supermajority predicate fails. -/
theorem supermajority_failure_aborts_both_witness :
    handlerSupFails.validateVoteExtensionsFn () sampleECI = .error "no supermajority" ∧
    (ValidateExtendedCommitInfoPrepare handlerSupFails () 1 sampleECI =
        .error "no supermajority" ∧
      ValidateExtendedCommitInfoProcess handlerSupFails () sampleReqMatching sampleECI =
        .error "no supermajority" ∧
      ∀ (codec : VoteExtensionCodec Unit) (vov : Unit → Unit → Except String Unit),
        ValidateExtendedCommitInfoPrepare ⟨handlerSupFails.validateVoteExtensionsFn, codec, vov⟩
            () 1 sampleECI = .error "no supermajority" ∧
        ValidateExtendedCommitInfoProcess ⟨handlerSupFails.validateVoteExtensionsFn, codec, vov⟩
            () sampleReqMatching sampleECI = .error "no supermajority") :=
  ⟨rfl, supermajority_failure_aborts_both handlerSupFails () 1 sampleReqMatching sampleECI
    "no supermajority" rfl⟩

/-- C2: in the process path, a vote whose validator address has no entry among the
proposed last commit's votes forces a non-nil error, for every handler,
even one whose collaborators all succeed. -/
theorem process_rejects_unknown_validator (h : ProposalHandler Ctx VE) (ctx : Ctx)
    (req : RequestProcessProposal) (eci : ExtendedCommitInfo) (v : ExtendedVoteInfo)
    (hv : v ∈ eci.votes)
    (hmiss : addressInCommits req.proposedLastCommit.votes v.validator.address = false) :
    ∃ e, ValidateExtendedCommitInfoProcess h ctx req eci = .error e := by
  cases hres : ValidateExtendedCommitInfoProcess h ctx req eci with
  | error e => exact ⟨e, rfl⟩
  | ok u =>
    cases u
    exfalso
    obtain ⟨-, hall⟩ := (ValidateExtendedCommitInfoProcess_ok h ctx req eci).mp hres
    obtain ⟨hfound, -⟩ := hall v hv
    rw [hmiss] at hfound
    exact Bool.noConfusion hfound

/-- Witness for C2: a handler with all-passing collaborators, an extended commit
vote, and an empty proposed last commit. -/
theorem process_rejects_unknown_validator_witness :
    sampleVote ∈ sampleECI.votes ∧
    addressInCommits sampleReqEmpty.proposedLastCommit.votes
      sampleVote.validator.address = false ∧
    ∃ e, ValidateExtendedCommitInfoProcess handlerAllOk () sampleReqEmpty sampleECI =
      .error e :=
  ⟨by decide, by decide,
    process_rejects_unknown_validator handlerAllOk () sampleReqEmpty sampleECI sampleVote
      (by decide) (by decide)⟩

/-- C3: when the codec fails to decode the extension bytes of a vote `v` of the
batch with error `e`, neither entry point returns nil; and when `v` is the first
vote that fails, both entry points return exactly `e`, for all later votes. -/
theorem decode_failure_invalidates_batch (h : ProposalHandler Ctx VE) (ctx : Ctx)
    (height : Int) (req : RequestProcessProposal) (eci : ExtendedCommitInfo)
    (v : ExtendedVoteInfo) (e : String)
    (hv : v ∈ eci.votes)
    (hd : h.voteExtensionCodec.decode v.voteExtension = .error e) :
    ValidateExtendedCommitInfoPrepare h ctx height eci ≠ .ok () ∧
    ValidateExtendedCommitInfoProcess h ctx req eci ≠ .ok () ∧
    (∀ pre post, eci.votes = pre ++ v :: post →
      h.validateVoteExtensionsFn ctx eci = .ok () →
      (∀ u ∈ pre, votePasses h ctx u) →
      ValidateExtendedCommitInfoPrepare h ctx height eci = .error e) ∧
    (∀ pre post, eci.votes = pre ++ v :: post →
      h.validateVoteExtensionsFn ctx eci = .ok () →
      (∀ u ∈ pre,
        addressInCommits req.proposedLastCommit.votes u.validator.address = true ∧
          votePasses h ctx u) →
      addressInCommits req.proposedLastCommit.votes v.validator.address = true →
      ValidateExtendedCommitInfoProcess h ctx req eci = .error e) := by
  refine ⟨?_, ?_, ?_, ?_⟩
  · intro hok
    obtain ⟨-, hall⟩ := (ValidateExtendedCommitInfoPrepare_ok h ctx height eci).mp hok
    obtain ⟨w, hw, -⟩ := hall v hv
    rw [hd] at hw
    exact Except.noConfusion hw
  · intro hok
    obtain ⟨-, hall⟩ := (ValidateExtendedCommitInfoProcess_ok h ctx req eci).mp hok
    obtain ⟨-, w, hw, -⟩ := hall v hv
    rw [hd] at hw
    exact Except.noConfusion hw
  · intro pre post hsplit hsup hpre
    simp only [ValidateExtendedCommitInfoPrepare, hsup]
    rw [hsplit]
    exact validateVotesPrepare_firstFailure h ctx pre v post e hpre (Or.inl hd)
  · intro pre post hsplit hsup hpre hfound
    simp only [ValidateExtendedCommitInfoProcess, hsup]
    rw [hsplit]
    exact validateVotesProcess_firstFailure h ctx req pre v post e hpre hfound (Or.inl hd)

/-- Witness for C3: a handler whose codec rejects everything, on a one-vote batch. -/
theorem decode_failure_invalidates_batch_witness :
    sampleVote ∈ sampleECI.votes ∧
    handlerDecodeFails.voteExtensionCodec.decode sampleVote.voteExtension =
      .error "bad bytes" ∧
    (ValidateExtendedCommitInfoPrepare handlerDecodeFails () 1 sampleECI ≠ .ok () ∧
    ValidateExtendedCommitInfoProcess handlerDecodeFails () sampleReqMatching sampleECI ≠
      .ok () ∧
    (∀ pre post, sampleECI.votes = pre ++ sampleVote :: post →
      handlerDecodeFails.validateVoteExtensionsFn () sampleECI = .ok () →
      (∀ u ∈ pre, votePasses handlerDecodeFails () u) →
      ValidateExtendedCommitInfoPrepare handlerDecodeFails () 1 sampleECI =
        .error "bad bytes") ∧
    (∀ pre post, sampleECI.votes = pre ++ sampleVote :: post →
      handlerDecodeFails.validateVoteExtensionsFn () sampleECI = .ok () →
      (∀ u ∈ pre,
        addressInCommits sampleReqMatching.proposedLastCommit.votes
          u.validator.address = true ∧
          votePasses handlerDecodeFails () u) →
      addressInCommits sampleReqMatching.proposedLastCommit.votes
        sampleVote.validator.address = true →
      ValidateExtendedCommitInfoProcess handlerDecodeFails () sampleReqMatching sampleECI =
        .error "bad bytes")) :=
  ⟨by decide, rfl,
    decode_failure_invalidates_batch handlerDecodeFails () 1 sampleReqMatching sampleECI
      sampleVote "bad bytes" (by decide) rfl⟩

/-- C4: the prepare path returns nil exactly when the supermajority predicate
succeeds and every vote, in order, decodes and passes the oracle vote validator;
and the first vote whose decoded extension fails validation aborts the call with
that vote's error, for all later votes. -/
theorem prepare_ok_characterization (h : ProposalHandler Ctx VE) (ctx : Ctx)
    (height : Int) (eci : ExtendedCommitInfo) :
    (ValidateExtendedCommitInfoPrepare h ctx height eci = .ok () ↔
      h.validateVoteExtensionsFn ctx eci = .ok () ∧ ∀ v ∈ eci.votes, votePasses h ctx v) ∧
    (∀ pre v post voteExt e, eci.votes = pre ++ v :: post →
      h.validateVoteExtensionsFn ctx eci = .ok () →
      (∀ u ∈ pre, votePasses h ctx u) →
      h.voteExtensionCodec.decode v.voteExtension = .ok voteExt →
      h.validateOracleVoteExtension ctx voteExt = .error e →
      ValidateExtendedCommitInfoPrepare h ctx height eci = .error e) := by
  constructor
  · exact ValidateExtendedCommitInfoPrepare_ok h ctx height eci
  · intro pre v post voteExt e hsplit hsup hpre hdec hval
    simp only [ValidateExtendedCommitInfoPrepare, hsup]
    rw [hsplit]
    exact validateVotesPrepare_firstFailure h ctx pre v post e hpre
      (Or.inr ⟨voteExt, hdec, hval⟩)

/-- Witness for C4: the characterization instantiated at a concrete handler whose
collaborators all succeed. -/
theorem prepare_ok_characterization_witness :
    (ValidateExtendedCommitInfoPrepare handlerAllOk () 1 sampleECI = .ok () ↔
      handlerAllOk.validateVoteExtensionsFn () sampleECI = .ok () ∧
        ∀ v ∈ sampleECI.votes, votePasses handlerAllOk () v) ∧
    (∀ pre v post voteExt e, sampleECI.votes = pre ++ v :: post →
      handlerAllOk.validateVoteExtensionsFn () sampleECI = .ok () →
      (∀ u ∈ pre, votePasses handlerAllOk () u) →
      handlerAllOk.voteExtensionCodec.decode v.voteExtension = .ok voteExt →
      handlerAllOk.validateOracleVoteExtension () voteExt = .error e →
      ValidateExtendedCommitInfoPrepare handlerAllOk () 1 sampleECI = .error e) :=
  prepare_ok_characterization handlerAllOk () 1 sampleECI

/-- C6: both entry points are deterministic: with equal collaborators and equal
inputs, two calls yield the same accept/reject decision. The shallow embedding is
state-free because the Go bodies only read their inputs and log; neither function
writes consensus state. -/
theorem proposal_validation_deterministic (h₁ h₂ : ProposalHandler Ctx VE)
    (ctx₁ ctx₂ : Ctx) (height₁ height₂ : Int) (req₁ req₂ : RequestProcessProposal)
    (eci₁ eci₂ : ExtendedCommitInfo)
    (hh : h₁ = h₂) (hctx : ctx₁ = ctx₂) (hheight : height₁ = height₂)
    (hreq : req₁ = req₂) (heci : eci₁ = eci₂) :
    ValidateExtendedCommitInfoPrepare h₁ ctx₁ height₁ eci₁ =
        ValidateExtendedCommitInfoPrepare h₂ ctx₂ height₂ eci₂ ∧
      ValidateExtendedCommitInfoProcess h₁ ctx₁ req₁ eci₁ =
        ValidateExtendedCommitInfoProcess h₂ ctx₂ req₂ eci₂ := by
  subst hh hctx hheight hreq heci
  exact ⟨rfl, rfl⟩

/-- Witness for C6 at concrete equal inputs. -/
theorem proposal_validation_deterministic_witness :
    ValidateExtendedCommitInfoPrepare handlerAllOk () 1 sampleECI =
        ValidateExtendedCommitInfoPrepare handlerAllOk () 1 sampleECI ∧
      ValidateExtendedCommitInfoProcess handlerAllOk () sampleReqMatching sampleECI =
        ValidateExtendedCommitInfoProcess handlerAllOk () sampleReqMatching sampleECI :=
  proposal_validation_deterministic handlerAllOk handlerAllOk () () 1 1
    sampleReqMatching sampleReqMatching sampleECI sampleECI rfl rfl rfl rfl rfl

/-- C7: the process entry point is total: it always returns nil or an error; and an
extended commit info with an empty vote list succeeds whenever the supermajority
predicate accepts it. -/
theorem process_total_and_empty_ok (h : ProposalHandler Ctx VE) (ctx : Ctx)
    (req : RequestProcessProposal) (eci : ExtendedCommitInfo) :
    (ValidateExtendedCommitInfoProcess h ctx req eci = .ok () ∨
      ∃ e, ValidateExtendedCommitInfoProcess h ctx req eci = .error e) ∧
    (eci.votes = [] → h.validateVoteExtensionsFn ctx eci = .ok () →
      ValidateExtendedCommitInfoProcess h ctx req eci = .ok ()) := by
  constructor
  · cases hres : ValidateExtendedCommitInfoProcess h ctx req eci with
    | ok u => cases u; exact Or.inl rfl
    | error e => exact Or.inr ⟨e, rfl⟩
  · intro hempty hsup
    simp only [ValidateExtendedCommitInfoProcess, hsup]
    rw [hempty]
    simp [validateVotesProcess]

/-- C5: whenever at least `minProviderCount` candidate prices resolved, the
aggregated price is the rounded median of the candidates (with the even-count
average taken inside the rational intermediate type by `medianOfCandidates`); in
particular, with minProviderCount 3 and candidates 100, 102 and 1000000, the
aggregated price is 102. -/
theorem aggregate_outputs_median (minProviderCount : Nat) (candidates : List ℚ)
    (hcount : minProviderCount ≤ candidates.length) :
    aggregateCandidates minProviderCount candidates =
        some (roundHalfAwayFromZero (medianOfCandidates candidates)) ∧
      aggregateCandidates 3 [100, 102, 1000000] = some 102 := by
  constructor
  · simp [aggregateCandidates, Nat.not_lt.mpr hcount]
  · norm_num [aggregateCandidates, medianOfCandidates, roundHalfAwayFromZero,
      List.insertionSort, List.orderedInsert]

/-- Witness for C5 at the spec's own example input. -/
theorem aggregate_outputs_median_witness :
    3 ≤ ([100, 102, 1000000] : List ℚ).length ∧
      (aggregateCandidates 3 [100, 102, 1000000] =
          some (roundHalfAwayFromZero (medianOfCandidates [100, 102, 1000000])) ∧
        aggregateCandidates 3 [100, 102, 1000000] = some 102) :=
  ⟨by norm_num, aggregate_outputs_median 3 [100, 102, 1000000] (by norm_num)⟩

/-- An erroring `GetPool` means the ticker is not cached and its metadata fails to
parse, with the same error. -/
theorem getPool_error_elim (env : UniswapEnv) (u : PoolCache) (ticker : Ticker)
    (e : String) (herr : (GetPool env u ticker).1 = .error e) :
    cacheLookup u ticker = none ∧ poolParse env ticker = .error e := by
  cases hl : cacheLookup u ticker with
  | some pool => simp [GetPool, hl] at herr
  | none =>
    cases hp : poolParse env ticker with
    | error e₂ =>
      have h₁ : (GetPool env u ticker).1 = .error e₂ := by simp [GetPool, hl, hp]
      rw [h₁] at herr
      cases herr
      exact ⟨rfl, rfl⟩
    | ok cfg => simp [GetPool, hl, hp] at herr

/-- If some listed ticker is uncached and fails to parse, the pool-collection loop
fails, whatever else the cache holds. -/
theorem getPoolsAcc_error_of_bad_ticker (env : UniswapEnv) (t : Ticker) (e : String)
    (hparse : poolParse env t = .error e) :
    ∀ (ts : List Ticker) (u : PoolCache), t ∈ ts → cacheLookup u t = none →
      ∃ e₂, (getPoolsAcc env u ts).1 = .error e₂ := by
  intro ts
  induction ts with
  | nil =>
    intro u hmem _
    cases hmem
  | cons t₀ rest ih =>
    intro u hmem hlook
    by_cases heq : t₀ = t
    · subst heq
      refine ⟨e, ?_⟩
      simp [getPoolsAcc, GetPool, hlook, hparse]
    · rcases List.mem_cons.mp hmem with h1 | h2
      · exact absurd h1.symm heq
      · cases hg : GetPool env u t₀ with
        | mk res u₂ =>
          cases res with
          | error e₀ =>
            refine ⟨e₀, ?_⟩
            simp [getPoolsAcc, hg]
          | ok pool =>
            have hlook₂ : cacheLookup u₂ t = none := by
              cases hl : cacheLookup u t₀ with
              | some p =>
                simp only [GetPool, hl] at hg
                obtain ⟨-, hue⟩ := Prod.mk.injEq .. ▸ hg
                rw [← hue]
                exact hlook
              | none =>
                cases hp : poolParse env t₀ with
                | error e₀ => simp [GetPool, hl, hp] at hg
                | ok cfg =>
                  simp only [GetPool, hl, hp] at hg
                  obtain ⟨-, hue⟩ := Prod.mk.injEq .. ▸ hg
                  rw [← hue]
                  simp [cacheLookup, heq, hlook]
            obtain ⟨e₂, he₂⟩ := ih u₂ h2 hlook₂
            cases hrec : getPoolsAcc env u₂ rest with
            | mk r u₃ =>
              rw [hrec] at he₂
              cases r with
              | ok pools => simp at he₂
              | error e₃ =>
                refine ⟨e₃, ?_⟩
                simp [getPoolsAcc, hg, hrec]

/-- C8: if `GetPool` fails on any input ticker, `Fetch` marks every input ticker
unresolved with ErrorFailedToDecode; if the pools all resolve but the batched EVM
call fails as a whole, `Fetch` marks every input ticker unresolved with
ErrorAPIGeneral; in both cases nothing is resolved. -/
theorem fetch_invalidates_wholesale (env : UniswapEnv) (u : PoolCache)
    (tickers : List Ticker) :
    (∀ t e, t ∈ tickers → (GetPool env u t).1 = .error e →
      (Fetch env u tickers).1 = NewPriceResponseWithErr tickers .errorFailedToDecode) ∧
    (∀ pools u₂ e, getPoolsAcc env u tickers = (.ok pools, u₂) →
      env.batchCall (pools.map (fun p => p.address)) = .error e →
      (Fetch env u tickers).1 = NewPriceResponseWithErr tickers .errorAPIGeneral) ∧
    (∀ code, (NewPriceResponseWithErr tickers code).resolved = [] ∧
      ∀ t ∈ tickers, (t, code) ∈ (NewPriceResponseWithErr tickers code).unResolved) := by
  refine ⟨?_, ?_, ?_⟩
  · intro t e hmem herr
    obtain ⟨hlook, hparse⟩ := getPool_error_elim env u t e herr
    obtain ⟨e₂, he₂⟩ := getPoolsAcc_error_of_bad_ticker env t e hparse tickers u hmem hlook
    cases hacc : getPoolsAcc env u tickers with
    | mk res u₂ =>
      cases res with
      | error e₃ => simp [Fetch, hacc]
      | ok pools =>
        rw [hacc] at he₂
        simp at he₂
  · intro pools u₂ e hacc hbatch
    simp [Fetch, hacc, hbatch]
  · intro code
    refine ⟨rfl, ?_⟩
    intro t hmem
    simp only [NewPriceResponseWithErr, List.mem_map]
    exact ⟨t, hmem, rfl⟩

/-- The first component of a zip3 member belongs to the first list. -/
theorem zip3_mem_fst {α β γ : Type} (x : α × β × γ) :
    ∀ (ra : List α) (rb : List β) (rc : List γ), x ∈ zip3 ra rb rc → x.1 ∈ ra := by
  intro ra
  induction ra with
  | nil =>
    intro rb rc hx
    simp [zip3] at hx
  | cons a ta ih =>
    intro rb rc hx
    cases rb with
    | nil => simp [zip3] at hx
    | cons b tb =>
      cases rc with
      | nil => simp [zip3] at hx
      | cons c tc =>
        rcases List.mem_cons.mp hx with h1 | h2
        · rw [h1]
          exact List.mem_cons_self a ta
        · exact List.mem_cons_of_mem a (ih tb tc h2)

/-- In a zip3 whose first list has no duplicates, a first component determines the
other two. -/
theorem zip3_nodup_unique {α β γ : Type} :
    ∀ (ra : List α) (rb : List β) (rc : List γ) (a : α) (b₁ b₂ : β) (c₁ c₂ : γ),
      ra.Nodup → (a, b₁, c₁) ∈ zip3 ra rb rc → (a, b₂, c₂) ∈ zip3 ra rb rc →
      b₁ = b₂ ∧ c₁ = c₂ := by
  intro ra
  induction ra with
  | nil =>
    intro rb rc a b₁ b₂ c₁ c₂ _ h1 _
    simp [zip3] at h1
  | cons a₀ ta ih =>
    intro rb rc a b₁ b₂ c₁ c₂ hnd h1 h2
    cases rb with
    | nil => simp [zip3] at h1
    | cons b₀ tb =>
      cases rc with
      | nil => simp [zip3] at h1
      | cons c₀ tc =>
        rcases List.mem_cons.mp h1 with he1 | ht1
        · rcases List.mem_cons.mp h2 with he2 | ht2
          · obtain ⟨-, hbc1⟩ := Prod.mk.injEq .. ▸ he1
            obtain ⟨-, hbc2⟩ := Prod.mk.injEq .. ▸ he2
            obtain ⟨hb1, hc1⟩ := Prod.mk.injEq .. ▸ hbc1
            obtain ⟨hb2, hc2⟩ := Prod.mk.injEq .. ▸ hbc2
            exact ⟨hb1.trans hb2.symm, hc1.trans hc2.symm⟩
          · obtain ⟨ha, -⟩ := Prod.mk.injEq .. ▸ he1
            have hmem : a ∈ ta := zip3_mem_fst (a, b₂, c₂) ta tb tc ht2
            rw [ha] at hmem
            exact absurd hmem (List.nodup_cons.mp hnd).1
        · rcases List.mem_cons.mp h2 with he2 | ht2
          · obtain ⟨ha, -⟩ := Prod.mk.injEq .. ▸ he2
            have hmem : a ∈ ta := zip3_mem_fst (a, b₁, c₁) ta tb tc ht1
            rw [ha] at hmem
            exact absurd hmem (List.nodup_cons.mp hnd).1
          · exact ih tb tc a b₁ b₂ c₁ c₂ (List.nodup_cons.mp hnd).2 ht1 ht2

/-- With matching lengths, every member of the first list appears as a first
component of the zip3. -/
theorem zip3_exists_of_mem_fst {α β γ : Type} :
    ∀ (ra : List α) (rb : List β) (rc : List γ) (a : α),
      a ∈ ra → ra.length = rb.length → ra.length = rc.length →
      ∃ b c, (a, b, c) ∈ zip3 ra rb rc := by
  intro ra
  induction ra with
  | nil =>
    intro rb rc a ha _ _
    cases ha
  | cons a₀ ta ih =>
    intro rb rc a ha hlb hlc
    cases rb with
    | nil => simp at hlb
    | cons b₀ tb =>
      cases rc with
      | nil => simp at hlc
      | cons c₀ tc =>
        rcases List.mem_cons.mp ha with h1 | h2
        · subst h1
          exact ⟨b₀, c₀, List.mem_cons_self _ _⟩
        · obtain ⟨b, c, hm⟩ := ih tb tc a h2 (by simpa using hlb) (by simpa using hlc)
          exact ⟨b, c, List.mem_cons_of_mem _ hm⟩

/-- A successful pool-collection loop returns one pool per ticker. -/
theorem getPoolsAcc_ok_length (env : UniswapEnv) :
    ∀ (ts : List Ticker) (u : PoolCache) (pools : List PoolConfig) (u₂ : PoolCache),
      getPoolsAcc env u ts = (.ok pools, u₂) → pools.length = ts.length := by
  intro ts
  induction ts with
  | nil =>
    intro u pools u₂ h
    simp only [getPoolsAcc] at h
    obtain ⟨h1, -⟩ := Prod.mk.injEq .. ▸ h
    injection h1 with h1
    simp [← h1]
  | cons t rest ih =>
    intro u pools u₂ h
    cases hg : GetPool env u t with
    | mk res u₃ =>
      cases res with
      | error e => simp [getPoolsAcc, hg] at h
      | ok pool =>
        cases hrec : getPoolsAcc env u₃ rest with
        | mk r u₄ =>
          cases r with
          | error e => simp [getPoolsAcc, hg, hrec] at h
          | ok pools₂ =>
            simp only [getPoolsAcc, hg, hrec] at h
            obtain ⟨h1, -⟩ := Prod.mk.injEq .. ▸ h
            injection h1 with h1
            rw [← h1]
            simp [ih u₃ pools₂ u₄ hrec]

/-- Membership in the resolved map of the result loop: exactly the tickers whose
zipped batch element yields a price. -/
theorem mem_resolved_processResults (env : UniswapEnv) (t : Ticker) (price : Int) :
    ∀ L : List (Ticker × PoolConfig × Except String String),
      (t, price) ∈ (processResults env L).resolved ↔
        ∃ p r, (t, p, r) ∈ L ∧ fetchResultForTicker env t p r = .ok price := by
  intro L
  induction L with
  | nil => simp [processResults]
  | cons head rest ih =>
    obtain ⟨t₀, p₀, r₀⟩ := head
    cases hres : fetchResultForTicker env t₀ p₀ r₀ with
    | ok price₀ =>
      have hstep : (processResults env ((t₀, p₀, r₀) :: rest)).resolved =
          (t₀, price₀) :: (processResults env rest).resolved := by
        simp [processResults, hres]
      rw [hstep]
      simp only [List.mem_cons]
      constructor
      · rintro (h1 | h2)
        · obtain ⟨ht, hpe⟩ := Prod.ext_iff.mp h1
          subst ht
          subst hpe
          exact ⟨p₀, r₀, Or.inl rfl, hres⟩
        · obtain ⟨p, r, hm, hr⟩ := ih.mp h2
          exact ⟨p, r, Or.inr hm, hr⟩
      · rintro ⟨p, r, hm, hr⟩
        rcases hm with h1 | h2
        · obtain ⟨ht, hpr⟩ := Prod.ext_iff.mp h1
          obtain ⟨hp, hrr⟩ := Prod.ext_iff.mp hpr
          subst ht
          subst hp
          subst hrr
          rw [hres] at hr
          injection hr with hr
          exact Or.inl (by rw [hr])
        · exact Or.inr (ih.mpr ⟨p, r, h2, hr⟩)
    | error code₀ =>
      have hstep : (processResults env ((t₀, p₀, r₀) :: rest)).resolved =
          (processResults env rest).resolved := by
        simp [processResults, hres]
      rw [hstep, ih]
      constructor
      · rintro ⟨p, r, hm, hr⟩
        exact ⟨p, r, List.mem_cons_of_mem _ hm, hr⟩
      · rintro ⟨p, r, hm, hr⟩
        rcases List.mem_cons.mp hm with h1 | h2
        · obtain ⟨ht, hpr⟩ := Prod.ext_iff.mp h1
          obtain ⟨hp, hrr⟩ := Prod.ext_iff.mp hpr
          subst ht
          subst hp
          subst hrr
          rw [hres] at hr
          exact Except.noConfusion hr
        · exact ⟨p, r, h2, hr⟩

/-- Membership in the unresolved map of the result loop: exactly the tickers whose
zipped batch element fails. -/
theorem mem_unresolved_processResults (env : UniswapEnv) (t : Ticker) (code : ErrorCode) :
    ∀ L : List (Ticker × PoolConfig × Except String String),
      (t, code) ∈ (processResults env L).unResolved ↔
        ∃ p r, (t, p, r) ∈ L ∧ fetchResultForTicker env t p r = .error code := by
  intro L
  induction L with
  | nil => simp [processResults]
  | cons head rest ih =>
    obtain ⟨t₀, p₀, r₀⟩ := head
    cases hres : fetchResultForTicker env t₀ p₀ r₀ with
    | ok price₀ =>
      have hstep : (processResults env ((t₀, p₀, r₀) :: rest)).unResolved =
          (processResults env rest).unResolved := by
        simp [processResults, hres]
      rw [hstep, ih]
      constructor
      · rintro ⟨p, r, hm, hr⟩
        exact ⟨p, r, List.mem_cons_of_mem _ hm, hr⟩
      · rintro ⟨p, r, hm, hr⟩
        rcases List.mem_cons.mp hm with h1 | h2
        · obtain ⟨ht, hpr⟩ := Prod.ext_iff.mp h1
          obtain ⟨hp, hrr⟩ := Prod.ext_iff.mp hpr
          subst ht
          subst hp
          subst hrr
          rw [hres] at hr
          exact Except.noConfusion hr
        · exact ⟨p, r, h2, hr⟩
    | error code₀ =>
      have hstep : (processResults env ((t₀, p₀, r₀) :: rest)).unResolved =
          (t₀, code₀) :: (processResults env rest).unResolved := by
        simp [processResults, hres]
      rw [hstep]
      simp only [List.mem_cons]
      constructor
      · rintro (h1 | h2)
        · obtain ⟨ht, hpe⟩ := Prod.ext_iff.mp h1
          subst ht
          subst hpe
          exact ⟨p₀, r₀, Or.inl rfl, hres⟩
        · obtain ⟨p, r, hm, hr⟩ := ih.mp h2
          exact ⟨p, r, Or.inr hm, hr⟩
      · rintro ⟨p, r, hm, hr⟩
        rcases hm with h1 | h2
        · obtain ⟨ht, hpr⟩ := Prod.ext_iff.mp h1
          obtain ⟨hp, hrr⟩ := Prod.ext_iff.mp hpr
          subst ht
          subst hp
          subst hrr
          rw [hres] at hr
          injection hr with hr
          exact Or.inl (by rw [hr])
        · exact Or.inr (ih.mpr ⟨p, r, h2, hr⟩)

/-- Witness for C8: a one-bad-ticker environment and a batch-failing environment. -/
theorem fetch_invalidates_wholesale_witness :
    (∀ t e, t ∈ [sampleTickerA, sampleTickerB] →
      (GetPool sampleEnvUnmarshalFails [] t).1 = .error e →
      (Fetch sampleEnvUnmarshalFails [] [sampleTickerA, sampleTickerB]).1 =
        NewPriceResponseWithErr [sampleTickerA, sampleTickerB] .errorFailedToDecode) ∧
    (∀ pools u₂ e,
      getPoolsAcc sampleEnvUnmarshalFails [] [sampleTickerA, sampleTickerB] =
        (.ok pools, u₂) →
      sampleEnvUnmarshalFails.batchCall (pools.map (fun p => p.address)) = .error e →
      (Fetch sampleEnvUnmarshalFails [] [sampleTickerA, sampleTickerB]).1 =
        NewPriceResponseWithErr [sampleTickerA, sampleTickerB] .errorAPIGeneral) ∧
    (∀ code,
      (NewPriceResponseWithErr [sampleTickerA, sampleTickerB] code).resolved = [] ∧
      ∀ t ∈ [sampleTickerA, sampleTickerB],
        (t, code) ∈
          (NewPriceResponseWithErr [sampleTickerA, sampleTickerB] code).unResolved) :=
  fetch_invalidates_wholesale sampleEnvUnmarshalFails [] [sampleTickerA, sampleTickerB]

/-- C9, counterexample to the claim as stated: with the duplicated input
`[sampleTickerA, sampleTickerA]`, every pool resolving (via the cache on the second
occurrence) and the batched call succeeding as a whole with the first element
yielding a price and the second failing, `Fetch` places the ticker in the resolved
map and in the unresolved map at once, so it does not appear in exactly one of the
two maps. -/
theorem fetch_duplicate_ticker_in_both_maps :
    getPoolsAcc sampleEnvMixed [] [sampleTickerA, sampleTickerA] =
        (.ok [samplePool, samplePool], [(sampleTickerA, samplePool)]) ∧
    sampleEnvMixed.batchCall ([samplePool, samplePool].map (fun p => p.address)) =
        .ok [.ok "0x01", .error "rpc"] ∧
    sampleTickerA ∈ [sampleTickerA, sampleTickerA] ∧
    resolvedTicker (Fetch sampleEnvMixed [] [sampleTickerA, sampleTickerA]).1
      sampleTickerA ∧
    unresolvedTicker (Fetch sampleEnvMixed [] [sampleTickerA, sampleTickerA]).1
      sampleTickerA :=
  ⟨rfl, rfl, by decide, ⟨7, by decide⟩, ⟨.errorUnknown, by decide⟩⟩

/-- C9, amended: when every pool resolves and the batched call succeeds with one
element per ticker, every input ticker — the inputs being pairwise distinct, which
the counterexample above shows is necessary — lands in exactly one of the resolved
and unresolved maps, and each ticker's placement is decided by its own batch
element alone: an element that yields a price resolves exactly that ticker, and a
failing element leaves exactly that ticker unresolved. -/
theorem fetch_partitions_tickers (env : UniswapEnv) (u : PoolCache)
    (tickers : List Ticker) (pools : List PoolConfig) (u₂ : PoolCache)
    (results : List (Except String String))
    (hpools : getPoolsAcc env u tickers = (.ok pools, u₂))
    (hbatch : env.batchCall (pools.map (fun p => p.address)) = .ok results)
    (hlen : results.length = tickers.length)
    (hnodup : tickers.Nodup) :
    (∀ t ∈ tickers,
      (resolvedTicker (Fetch env u tickers).1 t ∧
          ¬ unresolvedTicker (Fetch env u tickers).1 t) ∨
        (¬ resolvedTicker (Fetch env u tickers).1 t ∧
          unresolvedTicker (Fetch env u tickers).1 t)) ∧
    (∀ t p r, (t, p, r) ∈ zip3 tickers pools results →
      ((∃ price, fetchResultForTicker env t p r = .ok price) →
          resolvedTicker (Fetch env u tickers).1 t ∧
            ¬ unresolvedTicker (Fetch env u tickers).1 t) ∧
      ((∃ code, fetchResultForTicker env t p r = .error code) →
          unresolvedTicker (Fetch env u tickers).1 t ∧
            ¬ resolvedTicker (Fetch env u tickers).1 t)) := by
  have hfetch : (Fetch env u tickers).1 = processResults env (zip3 tickers pools results) := by
    simp [Fetch, hpools, hbatch]
  have hkey : ∀ t p r, (t, p, r) ∈ zip3 tickers pools results →
      (∀ price, fetchResultForTicker env t p r = .ok price →
        resolvedTicker (Fetch env u tickers).1 t ∧
          ¬ unresolvedTicker (Fetch env u tickers).1 t) ∧
      (∀ code, fetchResultForTicker env t p r = .error code →
        unresolvedTicker (Fetch env u tickers).1 t ∧
          ¬ resolvedTicker (Fetch env u tickers).1 t) := by
    intro t p r hm
    constructor
    · intro price hres
      constructor
      · exact ⟨price, by
          rw [hfetch]
          exact (mem_resolved_processResults env t price _).mpr ⟨p, r, hm, hres⟩⟩
      · rintro ⟨code, hcode⟩
        rw [hfetch] at hcode
        obtain ⟨p₂, r₂, hm₂, hres₂⟩ := (mem_unresolved_processResults env t code _).mp hcode
        obtain ⟨hp, hr⟩ := zip3_nodup_unique tickers pools results t p p₂ r r₂ hnodup hm hm₂
        rw [← hp, ← hr] at hres₂
        rw [hres] at hres₂
        exact Except.noConfusion hres₂
    · intro code hres
      constructor
      · exact ⟨code, by
          rw [hfetch]
          exact (mem_unresolved_processResults env t code _).mpr ⟨p, r, hm, hres⟩⟩
      · rintro ⟨price, hprice⟩
        rw [hfetch] at hprice
        obtain ⟨p₂, r₂, hm₂, hres₂⟩ := (mem_resolved_processResults env t price _).mp hprice
        obtain ⟨hp, hr⟩ := zip3_nodup_unique tickers pools results t p p₂ r r₂ hnodup hm hm₂
        rw [← hp, ← hr] at hres₂
        rw [hres] at hres₂
        exact Except.noConfusion hres₂
  constructor
  · intro t hmem
    have hlp : pools.length = tickers.length :=
      getPoolsAcc_ok_length env tickers u pools u₂ hpools
    obtain ⟨p, r, hm⟩ := zip3_exists_of_mem_fst tickers pools results t hmem hlp.symm hlen.symm
    cases hres : fetchResultForTicker env t p r with
    | ok price => exact Or.inl ((hkey t p r hm).1 price hres)
    | error code =>
      obtain ⟨h1, h2⟩ := (hkey t p r hm).2 code hres
      exact Or.inr ⟨h2, h1⟩
  · intro t p r hm
    constructor
    · rintro ⟨price, hres⟩
      exact (hkey t p r hm).1 price hres
    · rintro ⟨code, hres⟩
      exact (hkey t p r hm).2 code hres

/-- Witness for C9: two distinct tickers whose batch elements succeed and fail
respectively. -/
theorem fetch_partitions_tickers_witness :
    (∀ t ∈ [sampleTickerA, sampleTickerB],
      (resolvedTicker (Fetch sampleEnvMixed [] [sampleTickerA, sampleTickerB]).1 t ∧
          ¬ unresolvedTicker (Fetch sampleEnvMixed [] [sampleTickerA, sampleTickerB]).1 t) ∨
        (¬ resolvedTicker (Fetch sampleEnvMixed [] [sampleTickerA, sampleTickerB]).1 t ∧
          unresolvedTicker (Fetch sampleEnvMixed [] [sampleTickerA, sampleTickerB]).1 t)) ∧
    (∀ t p r,
      (t, p, r) ∈ zip3 [sampleTickerA, sampleTickerB] [samplePool, samplePool]
        [.ok "0x01", .error "rpc"] →
      ((∃ price, fetchResultForTicker sampleEnvMixed t p r = .ok price) →
          resolvedTicker (Fetch sampleEnvMixed [] [sampleTickerA, sampleTickerB]).1 t ∧
            ¬ unresolvedTicker (Fetch sampleEnvMixed [] [sampleTickerA, sampleTickerB]).1 t) ∧
      ((∃ code, fetchResultForTicker sampleEnvMixed t p r = .error code) →
          unresolvedTicker (Fetch sampleEnvMixed [] [sampleTickerA, sampleTickerB]).1 t ∧
            ¬ resolvedTicker (Fetch sampleEnvMixed [] [sampleTickerA, sampleTickerB]).1 t)) :=
  fetch_partitions_tickers sampleEnvMixed [] [sampleTickerA, sampleTickerB]
    [samplePool, samplePool] [(sampleTickerB, samplePool), (sampleTickerA, samplePool)]
    [.ok "0x01", .error "rpc"] (by rfl) (by rfl) (by rfl) (by decide)

/-- C10: a successful `GetPool` caches its pool config, so every subsequent call on
the same ticker returns the identical config with no error and an unchanged cache,
independently of the parsing collaborators (no re-parse); a failed call leaves the
cache unchanged, so repeating it reproduces the same failure. -/
theorem getPool_cached_idempotent (env env₂ : UniswapEnv) (u : PoolCache)
    (ticker : Ticker) :
    (∀ cfg u₂, GetPool env u ticker = (.ok cfg, u₂) →
      GetPool env₂ u₂ ticker = (.ok cfg, u₂)) ∧
    (∀ e, (GetPool env u ticker).1 = .error e →
      GetPool env u ticker = (.error e, u)) := by
  constructor
  · intro cfg u₂ hok
    cases hl : cacheLookup u ticker with
    | some pool =>
      simp only [GetPool, hl] at hok
      obtain ⟨hcfg, hu⟩ := Prod.mk.injEq .. ▸ hok
      cases hcfg
      cases hu
      simp [GetPool, hl]
    | none =>
      cases hp : poolParse env ticker with
      | error e => simp [GetPool, hl, hp] at hok
      | ok cfg₂ =>
        simp only [GetPool, hl, hp] at hok
        obtain ⟨hcfg, hu⟩ := Prod.mk.injEq .. ▸ hok
        cases hcfg
        cases hu
        simp [GetPool, cacheLookup]
  · intro e herr
    cases hl : cacheLookup u ticker with
    | some pool => simp [GetPool, hl] at herr
    | none =>
      cases hp : poolParse env ticker with
      | error e₂ =>
        simp only [GetPool, hl, hp] at herr ⊢
        cases herr
        rfl
      | ok cfg => simp [GetPool, hl, hp] at herr

/-- Witness for C10 at concrete environments, caches and tickers. -/
theorem getPool_cached_idempotent_witness :
    (∀ cfg u₂, GetPool sampleEnvOk [] sampleTickerA = (.ok cfg, u₂) →
      GetPool sampleEnvUnmarshalFails u₂ sampleTickerA = (.ok cfg, u₂)) ∧
    (∀ e, (GetPool sampleEnvOk [] sampleTickerA).1 = .error e →
      GetPool sampleEnvOk [] sampleTickerA = (.error e, [])) :=
  getPool_cached_idempotent sampleEnvOk sampleEnvUnmarshalFails [] sampleTickerA

/-- Witness for C7 at a concrete handler, request and empty commit info. -/
theorem process_total_and_empty_ok_witness :
    (ValidateExtendedCommitInfoProcess handlerAllOk () sampleReqMatching emptyECI =
        .ok () ∨
      ∃ e, ValidateExtendedCommitInfoProcess handlerAllOk () sampleReqMatching emptyECI =
        .error e) ∧
    (emptyECI.votes = [] →
      handlerAllOk.validateVoteExtensionsFn () emptyECI = .ok () →
      ValidateExtendedCommitInfoProcess handlerAllOk () sampleReqMatching emptyECI =
        .ok ()) :=
  process_total_and_empty_ok handlerAllOk () sampleReqMatching emptyECI

end Slinky
